import Mathlib

/-!
Verification of the funding-tracker synchronization core.

This file shallowly embeds the parts of the `funding_tracker` Python package
that the specification's claims are about:

* `funding_tracker/exchanges/base.py` — the `BaseExchange` adapter contract
  (`__init_subclass__` validation, `fetch_history_before`,
  `fetch_history_after`, step constants);
* the per-exchange step constants of
  `funding_tracker/exchanges/{hyperliquid,bybit,binance_usdm,binance_coinm}.py`;
* `funding_tracker/coordinators/live_collector.py` — `collect_live`;
* `funding_tracker/shared/unit_of_work.py` — the `UnitOfWorkBase.__aexit__`
  transaction lifecycle and `_close`;
* the history-sync coordinator `sync_contract`, whose module
  (`funding_tracker/coordinators/history_fetcher.py`) only appears through
  the import in `funding_tracker/coordinators/__init__.py`; its loop is modelled
  from the specification, as is the live-fetch dispatch layer that
  `live_collector.py` invokes as `exchange_adapter.fetch_live(contracts)`.

Timestamps are epoch milliseconds (`Int`, matching Python's unbounded ints);
funding rates are carried as `Int` stand-ins (their numeric value is never
computed with, only stored and compared for identity).
-/

namespace FundingTracker

/-- One (rate, timestamp) funding observation, as in `exchanges/dto.py`
(`FundingPoint(rate, timestamp)`); the timestamp is epoch milliseconds. -/
structure FundingPoint where
  ts : Int
  rate : Int
deriving DecidableEq, Repr

/-- A stored funding row `(contract_id, timestamp, rate)`, the shape shared by
`HistoricalFundingPoint` and `LiveFundingPoint` (distinct relations; this file
keeps them in distinct state values). -/
structure FundingRow where
  contractId : Nat
  ts : Int
  rate : Int
deriving DecidableEq, Repr

/-- The uniqueness key of a stored row: `(contract_id, timestamp)`. -/
def rowKey (r : FundingRow) : Nat × Int := (r.contractId, r.ts)

/-- Embeds `bulk_insert_ignore`: append each batch row unless a row with the same
`(contract_id, timestamp)` key is already present (rows violating the
uniqueness constraint are silently skipped, also within the batch itself). -/
def bulkInsertIgnore (storage batch : List FundingRow) : List FundingRow :=
  batch.foldl
    (fun st r =>
      if st.any (fun r0 => rowKey r0 = rowKey r) then st else st ++ [r])
    storage

/-- The key list of a storage list. -/
def storageKeys (storage : List FundingRow) : List (Nat × Int) :=
  storage.map rowKey

/-! ### Exchange adapter contract (`exchanges/base.py`) -/

/-- What `BaseExchange.__init_subclass__` inspects on a would-be adapter
class: whether `hasattr(cls, "EXCHANGE_ID")` holds (own or inherited), and
whether `"fetch_live_batch"` / `"fetch_live"` are in `cls.__dict__` (defined
by the subclass itself, not inherited from `BaseExchange`). -/
structure AdapterClassDef where
  hasExchangeId : Bool
  definesFetchLiveBatch : Bool
  definesFetchLive : Bool
deriving DecidableEq, Repr

/-- The two `NotImplementedError` cases `__init_subclass__` can raise. -/
inductive SubclassError where
  | missingExchangeId
  | noLiveMethod
deriving DecidableEq, Repr

/-- Embeds `BaseExchange.__init_subclass__` (base.py:25-41): raise if `EXCHANGE_ID`
is absent, then raise if neither live method is defined on the class itself;
otherwise accept. This runs at class-definition time, before any instance
exists and before any network call. -/
def initSubclassCheck (c : AdapterClassDef) : Except SubclassError Unit :=
  if ¬c.hasExchangeId then .error .missingExchangeId
  else if ¬c.definesFetchLiveBatch ∧ ¬c.definesFetchLive then .error .noLiveMethod
  else .ok ()

/-- The `_FETCH_STEP` of `HyperliquidExchange` (hyperliquid.py:25). -/
def hyperliquidFetchStep : Nat := 498

/-- The `_MAX_FETCH_WINDOW_HOURS` of the Bybit adapter (bybit.py:15). -/
def bybitMaxFetchWindowHours : Nat := 198

/-- The `_MAX_FETCH_WINDOW_HOURS` of the Binance USD-M adapter
(binance_usdm.py:16). -/
def binanceUsdmMaxFetchWindowHours : Nat := 1000

/-- The `_MAX_FETCH_WINDOW_HOURS` of the Binance COIN-M adapter
(binance_coinm.py:16). -/
def binanceCoinmMaxFetchWindowHours : Nat := 8000

/-- Embeds `BaseExchange.fetch_history_before` (base.py:64-77): the window end is the
anchor (or "now" when the anchor is `None`), the start is the end minus
`_FETCH_STEP` hours, both in epoch milliseconds, and the underlying
`_fetch_history` is called on exactly that window. -/
def fetch_history_before (fetchStep : Nat) (nowMs : Int)
    (fetchHistory : Int → Int → List FundingPoint)
    (anchorMs : Option Int) : List FundingPoint :=
  let endMs : Int := match anchorMs with
    | some a => a
    | none => nowMs
  let startMs : Int := endMs - (fetchStep : Int) * 3600 * 1000
  fetchHistory startMs endMs

/-- Embeds `BaseExchange.fetch_history_after` (base.py:79-89): the window is
`[anchor, now]` in epoch milliseconds and the underlying `_fetch_history` is
called on exactly that window; no step constant is consulted. -/
def fetch_history_after (nowMs : Int)
    (fetchHistory : Int → Int → List FundingPoint)
    (anchorMs : Int) : List FundingPoint :=
  fetchHistory anchorMs nowMs

/-! ### Live collector (`coordinators/live_collector.py`) -/

/-- A stored `Contract` row as the live collector sees it: a primary key and
the exchange-native symbol its adapter formats for it. -/
structure Contract where
  id : Nat
  symbol : String
deriving DecidableEq, Repr

/-- An adapter's live-fetch capability: `batchImpl` is `some` exactly when the
adapter implements `fetch_live_batch` (its symbol-keyed result map), and
`singleImpl` is the per-contract `fetch_live`, `none` meaning that contract's
single fetch fails or the symbol is missing. -/
structure LiveAdapter where
  batchImpl : Option (List (String × FundingPoint))
  singleImpl : Contract → Option FundingPoint

/-- Look a symbol up in a batch result map. -/
def lookupSymbol (m : List (String × FundingPoint)) (s : String) :
    Option FundingPoint :=
  (m.find? (fun e => e.1 = s)).map (fun e => e.2)

/-- Modelled from the spec: the live-fetch dispatch/fan-out layer that
`live_collector.py` invokes as `exchange_adapter.fetch_live(list(contracts))`
(its module is not among the sources; spec §4.1/§4.5/§4.4). It serves the
contract list through the preferred `fetch_live_batch` when the adapter
implements it, matching each contract's symbol against the batch map, and
otherwise fans the list out over per-contract `fetch_live` calls; a contract
whose rate is unavailable is simply absent from the result. -/
def fetch_live_dispatch (a : LiveAdapter) (contracts : List Contract) :
    List (Contract × FundingPoint) :=
  match a.batchImpl with
  | some m => contracts.filterMap
      (fun c => (lookupSymbol m c.symbol).map (fun p => (c, p)))
  | none => contracts.filterMap
      (fun c => (a.singleImpl c).map (fun p => (c, p)))

/-- The log events `collect_live` can emit, with their severities. -/
inductive LogEvent where
  | warnNoActiveContracts (sectionName : String)
  | warnNoLiveRates (sectionName : String)
  | infoSuccessFailed (sectionName : String) (success failed : Nat)
  | debugAllSuccess (sectionName : String) (success : Nat)
deriving DecidableEq, Repr

/-- The `LiveFundingPoint(contract_id, timestamp, funding_rate)` row built
from one (contract, rate) pair (live_collector.py:38-45). -/
def liveRecordOf (cp : Contract × FundingPoint) : FundingRow :=
  ⟨cp.1.id, cp.2.ts, cp.2.rate⟩

/-- Embeds `collect_live` (live_collector.py:15-62) over the section's
active-contract set and the current live-point storage: return early (state
unchanged, a warning logged) when there are no active contracts or no rates
came back; otherwise bulk-insert-ignore the rows and log the
success/failure counts. -/
def collect_live (a : LiveAdapter) (sectionName : String)
    (activeContracts : List Contract) (liveRows : List FundingRow) :
    List FundingRow × List LogEvent :=
  if activeContracts.isEmpty then
    (liveRows, [LogEvent.warnNoActiveContracts sectionName])
  else
    let ratesByContract := fetch_live_dispatch a activeContracts
    if ratesByContract.isEmpty then
      (liveRows, [LogEvent.warnNoLiveRates sectionName])
    else
      let liveRecords := ratesByContract.map liveRecordOf
      let newRows := bulkInsertIgnore liveRows liveRecords
      let successCount := liveRecords.length
      let failureCount := activeContracts.length - successCount
      if failureCount > 0 then
        (newRows, [LogEvent.infoSuccessFailed sectionName successCount failureCount])
      else
        (newRows, [LogEvent.debugAllSuccess sectionName successCount])

/-! ### History backfill (`coordinators/history_fetcher.py`, via the spec) -/

/-- The observable outcome of one `sync_contract` run: the historical-point
storage, the number of `fetch_history_before` calls issued, and the windows
those calls returned, in order. -/
structure SyncResult where
  storage : List FundingRow
  fetchCalls : Nat
  windows : List (List FundingPoint)
deriving DecidableEq, Repr

/-- Fold a returned window into the oldest timestamp seen so far. -/
def updateOldest (oldest : Option Int) (w : List FundingPoint) : Option Int :=
  w.foldl
    (fun o p =>
      match o with
      | none => some p.ts
      | some m => some (min m p.ts))
    oldest

/-- Modelled from the spec: the backward-backfill loop of `sync_contract` in
`funding_tracker/coordinators/history_fetcher.py`, which is imported by
`coordinators/__init__.py` but absent from the sources. Spec §4.2: walk
backward, calling `fetch_history_before` with the oldest timestamp seen so
far as the anchor (`none`, meaning "now", on the first call), persist each
window's batch with bulk-insert-ignore before issuing the next request, and
stop when a window comes back empty. The adapter is a function from
(call index, anchor) to the returned window; `fuel` bounds the recursion and
a `none` result means fuel ran out before the loop terminated. -/
def syncLoop (cid : Nat) (fetch : Nat → Option Int → List FundingPoint) :
    Nat → Nat → Option Int → List FundingRow → List (List FundingPoint) →
    Option SyncResult
  | 0, _, _, _, _ => none
  | fuel + 1, callIdx, oldest, storage, ws =>
    let w := fetch callIdx oldest
    if w.isEmpty then some ⟨storage, callIdx + 1, ws ++ [w]⟩
    else
      syncLoop cid fetch fuel (callIdx + 1) (updateOldest oldest w)
        (bulkInsertIgnore storage (w.map (fun p => ⟨cid, p.ts, p.rate⟩)))
        (ws ++ [w])

/-- Embeds `sync_contract(adapter, contract, uow)`: run the backfill loop from
"now" (anchor `none`) against empty per-run accumulators. -/
def sync_contract (cid : Nat) (fetch : Nat → Option Int → List FundingPoint)
    (fuel : Nat) : Option SyncResult :=
  syncLoop cid fetch fuel 0 none [] []

/-- The spec §8 scenario adapter: windows at hours {10, 9}, then {8, 7},
then empty, queried backward from "now" = hour 10. -/
def scenarioFetch : Nat → Option Int → List FundingPoint
  | 0, _ => [⟨10, 0⟩, ⟨9, 0⟩]
  | 1, _ => [⟨8, 0⟩, ⟨7, 0⟩]
  | _ + 2, _ => []

/-! ### Unit of Work (`shared/unit_of_work.py`) -/

/-- A database session as the Unit of Work sees it: the durably committed
rows, the changes pending in the open transaction, and whether the session
has been closed. -/
structure Session where
  durable : List FundingRow
  pending : List FundingRow
  closed : Bool
deriving DecidableEq, Repr

/-- Embeds `UnitOfWorkBase.commit` (unit_of_work.py:74-76): make the pending
changes durable. -/
def Session.commit (s : Session) : Session :=
  ⟨s.durable ++ s.pending, [], s.closed⟩

/-- Embeds `UnitOfWorkBase.rollback` (unit_of_work.py:82-84): discard the pending
changes. -/
def Session.rollback (s : Session) : Session :=
  ⟨s.durable, [], s.closed⟩

/-- Embeds `AsyncSession.close`: release the session. -/
def Session.close (s : Session) : Session :=
  ⟨s.durable, s.pending, true⟩

/-- Embeds `UnitOfWorkBase.__aenter__` (unit_of_work.py:37-48): a fresh session
over the current durable state, with nothing pending. -/
def uowOpen (durable : List FundingRow) : Session :=
  ⟨durable, [], false⟩

/-- Embeds `UnitOfWorkBase.__aexit__` (unit_of_work.py:50-72), state effect: roll
back when the context body raised (`exc_val` non-`None`), commit otherwise,
then always close the session. -/
def uowAexit (excOccurred : Bool) (s : Session) : Session :=
  Session.close (if excOccurred then Session.rollback s else Session.commit s)

/-- The awaitables `__aexit__` runs, in order; `close` carries whether the
call is wrapped in `asyncio.shield`. -/
inductive UowAction where
  | rollback
  | commit
  | close (shielded : Bool)
deriving DecidableEq, Repr

/-- Embeds `UnitOfWorkBase.__aexit__` as the trace of awaitables it runs, paired
with whether an exception propagates out of it:
`try: rollback-or-commit finally: await self._close()` (unit_of_work.py:66-72),
where `_close` (unit_of_work.py:86-94) awaits
`asyncio.shield(self._session.close())` — recorded as the `shielded` flag.
`excVal` says whether the context body raised; `commitRaises` and
`rollbackRaises` model the commit or rollback awaitable itself failing, in
which case the `finally` block still runs before the exception escapes. -/
def uowAexitTrace (excVal commitRaises rollbackRaises : Bool) :
    List UowAction × Bool :=
  let body : List UowAction × Bool :=
    if excVal then ([UowAction.rollback], rollbackRaises)
    else ([UowAction.commit], commitRaises)
  (body.1 ++ [UowAction.close true], body.2)

/-- A five-contract section used to instantiate the live-collector
scenarios. -/
def demoContracts : List Contract :=
  [⟨1, "A"⟩, ⟨2, "B"⟩, ⟨3, "C"⟩, ⟨4, "D"⟩, ⟨5, "E"⟩]

/-- A batch-capable adapter returning rates for three of the five demo
contracts. -/
def demoAdapter : LiveAdapter :=
  ⟨some [("A", ⟨100, 1⟩), ("B", ⟨100, 2⟩), ("C", ⟨100, 3⟩)], fun _ => none⟩

end FundingTracker

namespace FundingTracker

/-! ### Helper lemmas about `bulkInsertIgnore` -/

theorem storageKeys_append (a b : List FundingRow) :
    storageKeys (a ++ b) = storageKeys a ++ storageKeys b := by
  simp [storageKeys]

theorem any_key_iff (st : List FundingRow) (r : FundingRow) :
    (st.any (fun r0 => rowKey r0 = rowKey r)) = true ↔ rowKey r ∈ storageKeys st := by
  simp only [List.any_eq_true, decide_eq_true_eq, storageKeys, List.mem_map]

theorem bulkInsertIgnore_nil (storage : List FundingRow) :
    bulkInsertIgnore storage [] = storage := rfl

theorem bulkInsertIgnore_cons (storage : List FundingRow) (r : FundingRow)
    (rest : List FundingRow) :
    bulkInsertIgnore storage (r :: rest) =
      bulkInsertIgnore
        (if storage.any (fun r0 => rowKey r0 = rowKey r) then storage
         else storage ++ [r]) rest := rfl

theorem mem_storageKeys_bulkInsertIgnore (storage batch : List FundingRow)
    (k : Nat × Int) :
    k ∈ storageKeys (bulkInsertIgnore storage batch) ↔
      k ∈ storageKeys storage ∨ ∃ r ∈ batch, k = rowKey r := by
  induction batch generalizing storage with
  | nil => simp [bulkInsertIgnore_nil]
  | cons r rest ih =>
    rw [bulkInsertIgnore_cons]
    by_cases hmem : (storage.any (fun r0 => rowKey r0 = rowKey r)) = true
    · rw [if_pos hmem, ih]
      rw [any_key_iff] at hmem
      constructor
      · rintro (h | h)
        · exact Or.inl h
        · exact Or.inr ⟨h.choose, List.mem_cons_of_mem _ h.choose_spec.1, h.choose_spec.2⟩
      · rintro (h | ⟨r0, hr0, hk⟩)
        · exact Or.inl h
        · rcases List.mem_cons.mp hr0 with h0 | h0
          · exact Or.inl (by rw [hk, h0]; exact hmem)
          · exact Or.inr ⟨r0, h0, hk⟩
    · rw [if_neg hmem, ih, storageKeys_append]
      constructor
      · rintro (h | h)
        · rcases List.mem_append.mp h with h0 | h0
          · exact Or.inl h0
          · refine Or.inr ⟨r, List.mem_cons_self _ _, ?_⟩
            simpa [storageKeys] using h0
        · exact Or.inr ⟨h.choose, List.mem_cons_of_mem _ h.choose_spec.1, h.choose_spec.2⟩
      · rintro (h | ⟨r0, hr0, hk⟩)
        · exact Or.inl (List.mem_append.mpr (Or.inl h))
        · rcases List.mem_cons.mp hr0 with h0 | h0
          · exact Or.inl (List.mem_append.mpr (Or.inr (by simp [storageKeys, hk, h0])))
          · exact Or.inr ⟨r0, h0, hk⟩

theorem nodup_storageKeys_bulkInsertIgnore (storage batch : List FundingRow)
    (h : (storageKeys storage).Nodup) :
    (storageKeys (bulkInsertIgnore storage batch)).Nodup := by
  induction batch generalizing storage with
  | nil => simpa [bulkInsertIgnore_nil] using h
  | cons r rest ih =>
    rw [bulkInsertIgnore_cons]
    by_cases hmem : (storage.any (fun r0 => rowKey r0 = rowKey r)) = true
    · rw [if_pos hmem]
      exact ih storage h
    · rw [if_neg hmem]
      apply ih
      rw [storageKeys_append]
      refine List.Nodup.append h (by simp [storageKeys]) ?_
      intro kk hk hk'
      have : kk = rowKey r := by simpa [storageKeys] using hk'
      rw [any_key_iff] at hmem
      exact hmem (this ▸ hk)

theorem bulkInsertIgnore_of_nodup_disjoint (storage batch : List FundingRow)
    (hnd : (storageKeys batch).Nodup)
    (hdisj : ∀ kk ∈ storageKeys batch, kk ∉ storageKeys storage) :
    bulkInsertIgnore storage batch = storage ++ batch := by
  induction batch generalizing storage with
  | nil => simp [bulkInsertIgnore_nil]
  | cons r rest ih =>
    rw [bulkInsertIgnore_cons]
    have hknotin : rowKey r ∉ storageKeys storage :=
      hdisj (rowKey r) (by simp [storageKeys])
    have hany : ¬(storage.any (fun r0 => rowKey r0 = rowKey r)) = true := by
      rw [any_key_iff]
      exact hknotin
    rw [if_neg hany, ih]
    · simp
    · exact (by simpa [storageKeys] using hnd : (rowKey r :: storageKeys rest).Nodup).of_cons
    · intro kk hkk
      rw [storageKeys_append]
      intro hmem
      rcases List.mem_append.mp hmem with h0 | h0
      · exact hdisj kk (by simp [storageKeys]; right; simpa [storageKeys] using hkk) h0
      · have hkr : kk = rowKey r := by simpa [storageKeys] using h0
        have hnodup' : rowKey r ∉ storageKeys rest :=
          (by simpa [storageKeys] using hnd : (rowKey r :: storageKeys rest).Nodup).not_mem
        exact hnodup' (hkr ▸ hkk)

/-! ### Claim theorems: adapter contract -/

/-- C2: a `BaseExchange` subclass lacking an `EXCHANGE_ID` attribute, or
defining neither `fetch_live_batch` nor `fetch_live`, is rejected with
`NotImplementedError` at class-definition time, and every subclass providing
an `EXCHANGE_ID` and at least one of the two live methods is accepted. -/
theorem initSubclass_validation (c : AdapterClassDef) :
    (initSubclassCheck c = .ok () ↔
      c.hasExchangeId ∧ (c.definesFetchLiveBatch ∨ c.definesFetchLive)) ∧
    (initSubclassCheck c = .error .missingExchangeId ↔ ¬c.hasExchangeId) ∧
    (initSubclassCheck c = .error .noLiveMethod ↔
      c.hasExchangeId ∧ ¬c.definesFetchLiveBatch ∧ ¬c.definesFetchLive) := by
  cases c with
  | mk hid hbatch hlive =>
    cases hid <;> cases hbatch <;> cases hlive <;>
      simp [initSubclassCheck]

/-- C3: the default `fetch_history_before` requests from `_fetch_history`
exactly the window `[anchor − fetchStep hours, anchor]` in epoch
milliseconds, and when the anchor is `None` the window end defaults to
"now". -/
theorem fetch_history_before_window (fetchStep : Nat) (nowMs : Int)
    (fetchHistory : Int → Int → List FundingPoint) :
    (∀ a : Int,
      fetch_history_before fetchStep nowMs fetchHistory (some a) =
        fetchHistory (a - (fetchStep : Int) * 3600 * 1000) a) ∧
    fetch_history_before fetchStep nowMs fetchHistory none =
      fetchHistory (nowMs - (fetchStep : Int) * 3600 * 1000) nowMs := by
  constructor
  · intro a
    rfl
  · rfl

/-- C4: the default `fetch_history_after` requests from `_fetch_history`
exactly the single window `[anchor, now]`, even when the gap between anchor
and now exceeds the adapter's fetch step — the window is never clamped. -/
theorem fetch_history_after_window (nowMs anchorMs : Int)
    (fetchHistory : Int → Int → List FundingPoint)
    (fetchStep : Nat)
    (_hwide : nowMs - anchorMs > (fetchStep : Int) * 3600 * 1000) :
    fetch_history_after nowMs fetchHistory anchorMs =
      fetchHistory anchorMs nowMs := by
  rfl

/-- C4 witness: a gap of 2000 hours against a 1000-hour step still yields the
single unclamped window. -/
theorem fetch_history_after_window_witness :
    (2000 * 3600 * 1000 : Int) - 0 > ((1000 : Nat) : Int) * 3600 * 1000 ∧
    fetch_history_after (2000 * 3600 * 1000) (fun s e => [⟨s, 0⟩, ⟨e, 0⟩]) 0 =
      (fun s e => [⟨s, 0⟩, ⟨e, 0⟩]) 0 (2000 * 3600 * 1000) :=
  ⟨by norm_num,
    fetch_history_after_window (2000 * 3600 * 1000) 0
      (fun s e => [⟨s, 0⟩, ⟨e, 0⟩]) 1000 (by norm_num)⟩

/-- C9: each adapter's fetch-step constant equals the venue's max records per
call times the minimum funding interval in hours, minus the adapter's safety
margin — Hyperliquid 500·1−2 = 498, Bybit 200·1−2 = 198, Binance USD-M
1000·1 = 1000, Binance COIN-M 1000·8 = 8000 — so each step never spans more
funding intervals than the per-call record cap. -/
theorem fetch_step_constants :
    hyperliquidFetchStep = 500 * 1 - 2 ∧
    bybitMaxFetchWindowHours = 200 * 1 - 2 ∧
    binanceUsdmMaxFetchWindowHours = 1000 * 1 ∧
    binanceCoinmMaxFetchWindowHours = 1000 * 8 ∧
    hyperliquidFetchStep / 1 ≤ 500 ∧
    bybitMaxFetchWindowHours / 1 ≤ 200 ∧
    binanceUsdmMaxFetchWindowHours / 1 ≤ 1000 ∧
    binanceCoinmMaxFetchWindowHours / 8 ≤ 1000 := by
  repeat constructor <;> decide

/-! ### Claim theorems: live collector -/

/-- C5: with a non-empty active-contract set, the live rates served to
`collect_live` come from the preferred `fetch_live_batch` whenever the
adapter implements it (the per-contract fallback is then never consulted:
the dispatch result does not depend on it), come from per-contract
`fetch_live` calls exactly when the batch method is unavailable, and the
resulting (contract, timestamp, rate) rows are bulk-insert-ignored as
`LiveFundingPoint`s. -/
theorem collect_live_preferred_method (a : LiveAdapter) (sectionName : String)
    (activeContracts : List Contract) (liveRows : List FundingRow)
    (hne : activeContracts ≠ []) :
    (∀ m single1 single2,
      a.batchImpl = some m →
        fetch_live_dispatch ⟨some m, single1⟩ activeContracts =
          fetch_live_dispatch ⟨some m, single2⟩ activeContracts) ∧
    (a.batchImpl = none →
      fetch_live_dispatch a activeContracts =
        activeContracts.filterMap
          (fun c => (a.singleImpl c).map (fun p => (c, p)))) ∧
    (fetch_live_dispatch a activeContracts ≠ [] →
      (collect_live a sectionName activeContracts liveRows).1 =
        bulkInsertIgnore liveRows
          ((fetch_live_dispatch a activeContracts).map liveRecordOf)) := by
  refine ⟨fun m s1 s2 _ => rfl, fun h => by simp [fetch_live_dispatch, h], fun hr => ?_⟩
  have h1 : activeContracts.isEmpty = false := by
    cases activeContracts with
    | nil => exact absurd rfl hne
    | cons c cs => rfl
  have h2 : (fetch_live_dispatch a activeContracts).isEmpty = false := by
    cases hh : fetch_live_dispatch a activeContracts with
    | nil => exact absurd hh hr
    | cons x xs => rfl
  rw [collect_live]
  simp only [h1, Bool.false_eq_true, if_false, h2]
  split <;> rfl

/-- C5 witness: one active contract, a batch-capable adapter; the batch rate
is stored. -/
theorem collect_live_preferred_method_witness :
    ([(⟨1, "BTC"⟩ : Contract)] ≠ []) ∧
    ((∀ m single1 single2,
      (LiveAdapter.mk (some [("BTC", ⟨100, 5⟩)]) (fun _ => none)).batchImpl = some m →
        fetch_live_dispatch ⟨some m, single1⟩ [(⟨1, "BTC"⟩ : Contract)] =
          fetch_live_dispatch ⟨some m, single2⟩ [(⟨1, "BTC"⟩ : Contract)]) ∧
    ((LiveAdapter.mk (some [("BTC", ⟨100, 5⟩)]) (fun _ => none)).batchImpl = none →
      fetch_live_dispatch ⟨some [("BTC", ⟨100, 5⟩)], fun _ => none⟩ [⟨1, "BTC"⟩] =
        ([⟨1, "BTC"⟩] : List Contract).filterMap
          (fun c => ((fun _ => none : Contract → Option FundingPoint) c).map
            (fun p => (c, p)))) ∧
    (fetch_live_dispatch ⟨some [("BTC", ⟨100, 5⟩)], fun _ => none⟩ [⟨1, "BTC"⟩] ≠ [] →
      (collect_live ⟨some [("BTC", ⟨100, 5⟩)], fun _ => none⟩ "hyperliquid"
        [⟨1, "BTC"⟩] []).1 =
        bulkInsertIgnore []
          ((fetch_live_dispatch ⟨some [("BTC", ⟨100, 5⟩)], fun _ => none⟩
            [⟨1, "BTC"⟩]).map liveRecordOf))) :=
  ⟨by simp,
    collect_live_preferred_method ⟨some [("BTC", ⟨100, 5⟩)], fun _ => none⟩
      "hyperliquid" [⟨1, "BTC"⟩] [] (by simp)⟩

theorem filterMap_pair_fst_sublist (g : Contract → Option FundingPoint)
    (cs : List Contract) :
    List.Sublist
      ((cs.filterMap (fun c => (g c).map (fun p => (c, p)))).map Prod.fst) cs := by
  induction cs with
  | nil => simp
  | cons c rest ih =>
    cases hg : g c with
    | none => simpa [List.filterMap_cons, hg] using ih.cons c
    | some p => simpa [List.filterMap_cons, hg] using ih.cons₂ c

theorem dispatch_fst_sublist (a : LiveAdapter) (cs : List Contract) :
    List.Sublist ((fetch_live_dispatch a cs).map Prod.fst) cs := by
  cases hb : a.batchImpl with
  | some m =>
    simpa [fetch_live_dispatch, hb] using
      filterMap_pair_fst_sublist (fun c => lookupSymbol m c.symbol) cs
  | none =>
    simpa [fetch_live_dispatch, hb] using
      filterMap_pair_fst_sublist a.singleImpl cs

/-- C6: when the live fetch yields rates for only `k` of the `N` active
contracts, `0 < k < N`, `collect_live` stores exactly those `k` live points,
returns normally, and logs "k success, (N−k) failed". -/
theorem collect_live_partial_coverage (a : LiveAdapter) (sectionName : String)
    (activeContracts : List Contract) (k : Nat)
    (hnodup : (activeContracts.map Contract.id).Nodup)
    (hk : (fetch_live_dispatch a activeContracts).length = k)
    (h0 : 0 < k) (hkN : k < activeContracts.length) :
    (collect_live a sectionName activeContracts []).1 =
      (fetch_live_dispatch a activeContracts).map liveRecordOf ∧
    (collect_live a sectionName activeContracts []).1.length = k ∧
    (collect_live a sectionName activeContracts []).2 =
      [LogEvent.infoSuccessFailed sectionName k (activeContracts.length - k)] := by
  have hne : activeContracts ≠ [] := by
    intro h
    rw [h] at hkN
    exact absurd (Nat.lt_of_lt_of_le h0 (Nat.le_of_lt hkN)) (by simp)
  have h1 : activeContracts.isEmpty = false := by
    cases activeContracts with
    | nil => exact absurd rfl hne
    | cons c cs => rfl
  have hrne : fetch_live_dispatch a activeContracts ≠ [] := by
    intro h
    rw [h] at hk
    simp at hk
    exact absurd (hk ▸ h0) (by simp)
  have h2 : (fetch_live_dispatch a activeContracts).isEmpty = false := by
    cases hh : fetch_live_dispatch a activeContracts with
    | nil => exact absurd hh hrne
    | cons x xs => rfl
  have hids :
      (((fetch_live_dispatch a activeContracts).map Prod.fst).map Contract.id).Nodup :=
    List.Nodup.sublist (List.Sublist.map Contract.id (dispatch_fst_sublist a activeContracts))
      hnodup
  have hkeys :
      (storageKeys ((fetch_live_dispatch a activeContracts).map liveRecordOf)).Nodup := by
    apply List.Nodup.of_map Prod.fst
    have heq :
        (storageKeys ((fetch_live_dispatch a activeContracts).map liveRecordOf)).map
            Prod.fst =
          ((fetch_live_dispatch a activeContracts).map Prod.fst).map Contract.id := by
      simp [storageKeys, liveRecordOf, rowKey, List.map_map, Function.comp]
    rw [heq]
    exact hids
  have hinsert :
      bulkInsertIgnore [] ((fetch_live_dispatch a activeContracts).map liveRecordOf) =
        (fetch_live_dispatch a activeContracts).map liveRecordOf := by
    have := bulkInsertIgnore_of_nodup_disjoint []
      ((fetch_live_dispatch a activeContracts).map liveRecordOf) hkeys
      (by intro kk hkk; simp [storageKeys])
    simpa using this
  have hfail : 0 < activeContracts.length - k := Nat.sub_pos_of_lt hkN
  rw [collect_live]
  simp only [h1, Bool.false_eq_true, if_false, h2]
  rw [if_pos (by simpa [hk] using hfail)]
  refine ⟨by simpa using hinsert, ?_, ?_⟩
  · simp [hinsert, hk]
  · simp [hinsert, hk]

/-- C6 witness: a batch response covering 3 of 5 active contracts stores 3
live points and logs "3 success, 2 failed". -/
theorem collect_live_partial_coverage_witness :
    (collect_live demoAdapter "bybit" demoContracts []).1 =
      (fetch_live_dispatch demoAdapter demoContracts).map liveRecordOf ∧
    (collect_live demoAdapter "bybit" demoContracts []).1.length = 3 ∧
    (collect_live demoAdapter "bybit" demoContracts []).2 =
      [LogEvent.infoSuccessFailed "bybit" 3 (demoContracts.length - 3)] :=
  collect_live_partial_coverage demoAdapter "bybit" demoContracts 3
    (by decide) (by decide) (by decide) (by decide)

/-- C7: `collect_live` is a successful no-op when the active-contract set is
empty or when the live fetch returns no rates at all: storage is unchanged
and the condition is only logged as a warning. -/
theorem collect_live_empty_noop (a : LiveAdapter) (sectionName : String)
    (liveRows : List FundingRow) :
    (collect_live a sectionName [] liveRows =
      (liveRows, [LogEvent.warnNoActiveContracts sectionName])) ∧
    (∀ activeContracts, activeContracts ≠ [] →
      fetch_live_dispatch a activeContracts = [] →
      collect_live a sectionName activeContracts liveRows =
        (liveRows, [LogEvent.warnNoLiveRates sectionName])) := by
  constructor
  · rfl
  · intro activeContracts hne hdisp
    have h1 : activeContracts.isEmpty = false := by
      cases activeContracts with
      | nil => exact absurd rfl hne
      | cons c cs => rfl
    rw [collect_live]
    simp only [h1, Bool.false_eq_true, if_false, hdisp]
    rfl

/-- C7 witness: one contract whose symbol is absent from an empty batch map
yields no rates; storage stays `[]` and only the warning is logged. -/
theorem collect_live_empty_noop_witness :
    (collect_live ⟨some [], fun _ => none⟩ "bybit" [] [] =
      ([], [LogEvent.warnNoActiveContracts "bybit"])) ∧
    (∀ activeContracts, activeContracts ≠ [] →
      fetch_live_dispatch ⟨some [], fun _ => none⟩ activeContracts = [] →
      collect_live ⟨some [], fun _ => none⟩ "bybit" activeContracts [] =
        ([], [LogEvent.warnNoLiveRates "bybit"])) :=
  collect_live_empty_noop ⟨some [], fun _ => none⟩ "bybit" []

/-! ### Claim theorems: unit of work -/

/-- C8: exiting a unit-of-work scope without an exception commits the
pending changes; exiting with an exception rolls them back, leaving the
durable state exactly as it was when the scope opened — and a failed scope
keeps the rows of a prior, separately committed scope intact. -/
theorem uow_commit_on_success_rollback_on_failure (s : Session)
    (d pA pB : List FundingRow) :
    (uowAexit false s).durable = s.durable ++ s.pending ∧
    (uowAexit true s).durable = s.durable ∧
    (uowAexit true
        { uowOpen ((uowAexit false ⟨d, pA, false⟩).durable) with
          pending := pB }).durable = d ++ pA := by
  refine ⟨rfl, rfl, rfl⟩

/-- C10: on every exit of the unit-of-work context — body succeeded, body
raised, or the commit/rollback inside `__aexit__` itself raised — the
session close runs, wrapped in `asyncio.shield`, and the commit or rollback
exception still propagates afterwards. -/
theorem uow_aexit_always_closes (excVal commitRaises rollbackRaises : Bool) :
    UowAction.close true ∈ (uowAexitTrace excVal commitRaises rollbackRaises).1 ∧
    (uowAexitTrace excVal commitRaises rollbackRaises).1.getLast? =
      some (UowAction.close true) ∧
    (uowAexitTrace excVal commitRaises rollbackRaises).2 =
      (if excVal then rollbackRaises else commitRaises) ∧
    (uowAexit excVal ⟨[], [], false⟩).closed = true := by
  cases excVal <;>
    simp [uowAexitTrace, uowAexit, Session.close, Session.commit, Session.rollback]

/-! ### Claim theorems: history backfill -/

theorem syncLoop_spec (cid : Nat) (fetch : Nat → Option Int → List FundingPoint)
    (n : Nat) (hfin : ∀ anchor, fetch n anchor = []) (fuel : Nat) :
    ∀ (callIdx : Nat) (oldest : Option Int) (storage : List FundingRow)
      (ws : List (List FundingPoint)),
      callIdx ≤ n → n + 1 ≤ callIdx + fuel →
      (storageKeys storage).Nodup →
      callIdx = ws.length →
      (∀ w ∈ ws, w ≠ []) →
      ∃ r : SyncResult,
        syncLoop cid fetch fuel callIdx oldest storage ws = some r ∧
        (storageKeys r.storage).Nodup ∧
        (∀ kk : Nat × Int, kk ∈ storageKeys r.storage ↔
          kk ∈ storageKeys storage ∨
          ∃ w ∈ r.windows.drop ws.length, ∃ p ∈ w, kk = (cid, p.ts)) ∧
        (∃ tail, r.windows = ws ++ tail) ∧
        r.fetchCalls = r.windows.length ∧
        r.windows.getLast? = some [] ∧
        (∀ w ∈ r.windows.dropLast, w ≠ []) := by
  induction fuel with
  | zero =>
    intro callIdx oldest storage ws h1 h2 _ _ _
    omega
  | succ fuel ih =>
    intro callIdx oldest storage ws h1 h2 hnd hlen hws
    by_cases hw : (fetch callIdx oldest).isEmpty = true
    · have hwnil : fetch callIdx oldest = [] := by
        cases hh : fetch callIdx oldest with
        | nil => rfl
        | cons p ps => rw [hh] at hw; exact absurd hw (by simp)
      refine ⟨⟨storage, callIdx + 1, ws ++ [fetch callIdx oldest]⟩,
        by simp [syncLoop, hw], hnd, ?_, ⟨[fetch callIdx oldest], rfl⟩, ?_, ?_, ?_⟩
      · intro kk
        rw [show (ws ++ [fetch callIdx oldest]).drop ws.length = [fetch callIdx oldest]
          from List.drop_left ws _]
        simp [hwnil]
      · simp [hlen]
      · rw [hwnil, List.getLast?_concat]
      · rw [hwnil, List.dropLast_concat]
        exact hws
    · have hwne : fetch callIdx oldest ≠ [] := by
        intro hh
        rw [hh] at hw
        exact hw rfl
      have hclt : callIdx < n := by
        rcases Nat.lt_or_ge callIdx n with h | h
        · exact h
        · exact absurd (hfin oldest ▸ (Nat.le_antisymm h1 h ▸ rfl :
            fetch callIdx oldest = fetch n oldest)) hwne
      obtain ⟨r, hr, rnd, rmem, ⟨tail, rtail⟩, rcalls, rlast, rdrop⟩ :=
        ih (callIdx + 1) (updateOldest oldest (fetch callIdx oldest))
          (bulkInsertIgnore storage
            ((fetch callIdx oldest).map (fun p => ⟨cid, p.ts, p.rate⟩)))
          (ws ++ [fetch callIdx oldest])
          hclt (by omega)
          (nodup_storageKeys_bulkInsertIgnore _ _ hnd)
          (by simp [hlen])
          (by
            intro w hwmem
            rcases List.mem_append.mp hwmem with h | h
            · exact hws w h
            · rw [List.mem_singleton.mp h]
              exact hwne)
      have rwindows : r.windows = ws ++ (fetch callIdx oldest :: tail) := by
        rw [rtail, List.append_assoc]
        rfl
      refine ⟨r, by simpa [syncLoop, hw] using hr, rnd, ?_,
        ⟨fetch callIdx oldest :: tail, rwindows⟩, rcalls, rlast, rdrop⟩
      intro kk
      rw [rmem kk, mem_storageKeys_bulkInsertIgnore]
      have hdrop1 : r.windows.drop ws.length = fetch callIdx oldest :: tail := by
        rw [rwindows]
        exact List.drop_left ws _
      have hdrop2 : r.windows.drop (ws ++ [fetch callIdx oldest]).length = tail := by
        rw [rtail]
        exact List.drop_left _ _
      rw [hdrop1, hdrop2]
      have hbatch : (∃ rr ∈ (fetch callIdx oldest).map
            (fun p => (⟨cid, p.ts, p.rate⟩ : FundingRow)), kk = rowKey rr) ↔
          ∃ p ∈ fetch callIdx oldest, kk = (cid, p.ts) := by
        simp [rowKey]
      constructor
      · rintro ((h | h) | h)
        · exact Or.inl h
        · exact Or.inr ⟨fetch callIdx oldest, List.mem_cons_self _ _, hbatch.mp h⟩
        · obtain ⟨w, hwm, hp⟩ := h
          exact Or.inr ⟨w, List.mem_cons_of_mem _ hwm, hp⟩
      · rintro (h | ⟨w, hwm, hp⟩)
        · exact Or.inl (Or.inl h)
        · rcases List.mem_cons.mp hwm with h0 | h0
          · exact Or.inl (Or.inr (hbatch.mpr (h0 ▸ hp)))
          · exact Or.inr ⟨w, h0, hp⟩

/-- C1: for every contract and every adapter whose backward history is
finite (some call index returns an empty window whatever the anchor),
`sync_contract` terminates within that many windows, and the resulting
storage holds exactly the deduplicated union of the returned windows — one
row per (contract_id, timestamp) — with the empty window as the final
fetch call and every earlier window non-empty. -/
theorem sync_contract_backfill (cid : Nat)
    (fetch : Nat → Option Int → List FundingPoint) (n : Nat)
    (hfin : ∀ anchor, fetch n anchor = []) :
    ∃ r : SyncResult,
      sync_contract cid fetch (n + 1) = some r ∧
      (storageKeys r.storage).Nodup ∧
      (∀ kk : Nat × Int, kk ∈ storageKeys r.storage ↔
        ∃ w ∈ r.windows, ∃ p ∈ w, kk = (cid, p.ts)) ∧
      r.fetchCalls = r.windows.length ∧
      r.windows.getLast? = some [] ∧
      (∀ w ∈ r.windows.dropLast, w ≠ []) := by
  obtain ⟨r, hr, hnd, hmem, _, hc, hl, hd⟩ :=
    syncLoop_spec cid fetch n hfin (n + 1) 0 none [] [] (Nat.zero_le n)
      (by omega) (by simp [storageKeys]) rfl (by simp)
  refine ⟨r, hr, hnd, ?_, hc, hl, hd⟩
  intro kk
  rw [hmem kk]
  simp [storageKeys]

/-- C1 witness: the spec §8 scenario — step 2 h, windows {10,9}, {8,7}, {}
from "now" = hour 10 — terminates after 2 non-empty fetches plus the empty
terminator with storage exactly {7,8,9,10}, once each. -/
theorem sync_contract_backfill_witness :
    (∀ anchor, scenarioFetch 2 anchor = []) ∧
    (∃ r : SyncResult,
      sync_contract 1 scenarioFetch (2 + 1) = some r ∧
      (storageKeys r.storage).Nodup ∧
      (∀ kk : Nat × Int, kk ∈ storageKeys r.storage ↔
        ∃ w ∈ r.windows, ∃ p ∈ w, kk = (1, p.ts)) ∧
      r.fetchCalls = r.windows.length ∧
      r.windows.getLast? = some [] ∧
      (∀ w ∈ r.windows.dropLast, w ≠ [])) ∧
    sync_contract 1 scenarioFetch 3 =
      some ⟨[⟨1, 10, 0⟩, ⟨1, 9, 0⟩, ⟨1, 8, 0⟩, ⟨1, 7, 0⟩], 3,
        [[⟨10, 0⟩, ⟨9, 0⟩], [⟨8, 0⟩, ⟨7, 0⟩], []]⟩ :=
  ⟨fun _ => rfl,
    sync_contract_backfill 1 scenarioFetch 2 (fun _ => rfl),
    by decide⟩

end FundingTracker
